import Mathlib

/-!
Verification development for the sweeneychris-worker backend (src/index.js, the
v5 revision, which is the revision all claims cite).

Part 1 below embeds the streaming relay of `handleChat` (src/index.js lines
139-278): the upstream feed is modelled at the level of parsed `data:` events
(the line re-assembly of lines 194-206 delivers exactly these parsed objects to
the dispatch of lines 208-243), and the output is the ordered list of events
written with `sendEvent` plus a flag recording that the writer was closed.

Part 2 embeds a JSON parser modelling the host `JSON.parse` builtin used at
line 252 (strings with escapes, numbers kept as validated raw tokens, arrays,
objects with last-key-wins field access as in JS objects).
-/

namespace Worker

/-- One parsed upstream event from the generation service feed, as classified
by the dispatch in src/index.js lines 211-239.
`thinkingStart` = content_block_start with content_block.type "thinking";
`toolStart` = content_block_start with content_block.type "tool_use" (carries
the block name); `textDelta` = content_block_delta with delta.type
"text_delta"; `inputJsonDelta` = content_block_delta with delta.type
"input_json_delta"; `other` = every other data line (other event types, the
end-of-stream sentinel, and unparseable lines skipped at lines 240-242). -/
inductive Frag where
  | thinkingStart : Frag
  | toolStart (name : String) : Frag
  | textDelta (text : String) : Frag
  | inputJsonDelta (chunk : String) : Frag
  | other : Frag
deriving DecidableEq, Repr

/-- A JSON value, the result of the host JSON.parse builtin. Numbers are kept
as their validated raw token (no claim observes numeric values). -/
inductive JVal where
  | jnull : JVal
  | jbool (b : Bool) : JVal
  | jnum (raw : String) : JVal
  | jstr (s : String) : JVal
  | jarr (items : List JVal) : JVal
  | jobj (fields : List (String × JVal)) : JVal

/-- Skip JSON whitespace. -/
def skipWs : List Char → List Char
  | c :: cs => if c = ' ' ∨ c = '\t' ∨ c = '\n' ∨ c = '\r' then skipWs cs else c :: cs
  | [] => []

/-- Hexadecimal digit value. -/
def hexVal (c : Char) : Option Nat :=
  if '0' ≤ c ∧ c ≤ '9' then some (c.toNat - '0'.toNat)
  else if 'a' ≤ c ∧ c ≤ 'f' then some (c.toNat - 'a'.toNat + 10)
  else if 'A' ≤ c ∧ c ≤ 'F' then some (c.toNat - 'A'.toNat + 10)
  else none

/-- Parse the body of a JSON string after the opening quote; returns the
decoded string and the remaining input. Escapes follow the JSON grammar;
a \u escape is mapped through Char.ofNat (code units outside the scalar
range degrade to NUL, an unobservable corner of the host string model). -/
def pstr : Nat → List Char → String → Option (String × List Char)
  | 0, _, _ => none
  | _ + 1, [], _ => none
  | fuel + 1, c :: cs, acc =>
    if c = '"' then some (acc, cs)
    else if c = '\\' then
      match cs with
      | [] => none
      | e :: cs2 =>
        if e = '"' then pstr fuel cs2 (acc.push '"')
        else if e = '\\' then pstr fuel cs2 (acc.push '\\')
        else if e = '/' then pstr fuel cs2 (acc.push '/')
        else if e = 'b' then pstr fuel cs2 (acc.push (Char.ofNat 8))
        else if e = 'f' then pstr fuel cs2 (acc.push (Char.ofNat 12))
        else if e = 'n' then pstr fuel cs2 (acc.push '\n')
        else if e = 'r' then pstr fuel cs2 (acc.push '\r')
        else if e = 't' then pstr fuel cs2 (acc.push '\t')
        else if e = 'u' then
          match cs2 with
          | h1 :: h2 :: h3 :: h4 :: cs3 =>
            match hexVal h1, hexVal h2, hexVal h3, hexVal h4 with
            | some a, some b, some c3, some d =>
              pstr fuel cs3 (acc.push (Char.ofNat (((a * 16 + b) * 16 + c3) * 16 + d)))
            | _, _, _, _ => none
          | _ => none
        else none
    else if c.toNat < 32 then none
    else pstr fuel cs (acc.push c)

/-- Take a run of decimal digits. -/
def takeDigits : List Char → String × List Char
  | c :: cs =>
    if '0' ≤ c ∧ c ≤ '9' then
      let (d, rest) := takeDigits cs
      (String.singleton c ++ d, rest)
    else ("", c :: cs)
  | [] => ("", [])

/-- Parse a JSON number token, returning the raw token text. Follows the JSON
grammar: optional minus, integer part without leading zeros, optional
fraction, optional exponent. -/
def pnum (cs : List Char) : Option (String × List Char) :=
  let (sign, cs1) :=
    match cs with
    | '-' :: rest => ("-", rest)
    | _ => ("", cs)
  match cs1 with
  | [] => none
  | c :: rest =>
    if c = '0' then
      let intPart := "0"
      (afterInt (sign ++ intPart) rest)
    else if '1' ≤ c ∧ c ≤ '9' then
      let (d, rest2) := takeDigits rest
      (afterInt (sign ++ String.singleton c ++ d) rest2)
    else none
where
  afterInt (acc : String) (cs : List Char) : Option (String × List Char) :=
    match cs with
    | '.' :: rest =>
      let (d, rest2) := takeDigits rest
      if d = "" then none else afterExpStart (acc ++ "." ++ d) rest2
    | _ => afterExpStart acc cs
  afterExpStart (acc : String) (cs : List Char) : Option (String × List Char) :=
    match cs with
    | c :: rest =>
      if c = 'e' ∨ c = 'E' then
        let (sgn, rest2) :=
          match rest with
          | '+' :: r => ("+", r)
          | '-' :: r => ("-", r)
          | _ => ("", rest)
        let (d, rest3) := takeDigits rest2
        if d = "" then none else some (acc ++ String.singleton c ++ sgn ++ d, rest3)
      else some (acc, c :: rest)
    | [] => some (acc, [])

/-- Check that the input starts with the given literal characters. -/
def expectLit : List Char → List Char → Option (List Char)
  | [], cs => some cs
  | l :: ls, c :: cs => if c = l then expectLit ls cs else none
  | _ :: _, [] => none

mutual

/-- Parse one JSON value (leading whitespace allowed). Fuel bounds recursion
depth; jparse supplies enough fuel for any input of the given length. -/
def pval : Nat → List Char → Option (JVal × List Char)
  | 0, _ => none
  | fuel + 1, cs =>
    match skipWs cs with
    | [] => none
    | c :: rest =>
      if c = 'n' then (expectLit ['u', 'l', 'l'] rest).map (fun r => (JVal.jnull, r))
      else if c = 't' then (expectLit ['r', 'u', 'e'] rest).map (fun r => (JVal.jbool true, r))
      else if c = 'f' then (expectLit ['a', 'l', 's', 'e'] rest).map (fun r => (JVal.jbool false, r))
      else if c = '"' then (pstr (rest.length + 1) rest ("")).map (fun p => (JVal.jstr p.1, p.2))
      else if c = '[' then
        match skipWs rest with
        | ']' :: r => some (JVal.jarr [], r)
        | r => parr fuel r []
      else if c = '{' then
        match skipWs rest with
        | '}' :: r => some (JVal.jobj [], r)
        | r => pobj fuel r []
      else (pnum (c :: rest)).map (fun p => (JVal.jnum p.1, p.2))

/-- Parse array elements (after the opening bracket, first element pending). -/
def parr : Nat → List Char → List JVal → Option (JVal × List Char)
  | 0, _, _ => none
  | fuel + 1, cs, acc =>
    match pval fuel cs with
    | none => none
    | some (v, rest) =>
      match skipWs rest with
      | ',' :: r => parr fuel r (acc ++ [v])
      | ']' :: r => some (JVal.jarr (acc ++ [v]), r)
      | _ => none

/-- Parse object members (after the opening brace, first member pending). -/
def pobj : Nat → List Char → List (String × JVal) → Option (JVal × List Char)
  | 0, _, _ => none
  | fuel + 1, cs, acc =>
    match skipWs cs with
    | '"' :: rest =>
      match pstr (rest.length + 1) rest ("") with
      | none => none
      | some (key, rest2) =>
        match skipWs rest2 with
        | ':' :: rest3 =>
          match pval fuel rest3 with
          | none => none
          | some (v, rest4) =>
            match skipWs rest4 with
            | ',' :: r => pobj fuel r (acc ++ [(key, v)])
            | '}' :: r => some (JVal.jobj (acc ++ [(key, v)]), r)
            | _ => none
        | _ => none
    | _ => none

end

/-- Model of the host JSON.parse: parse one value, then require only trailing
whitespace. Returns none exactly when JSON.parse would throw. -/
def jparse (s : String) : Option JVal :=
  match pval (2 * s.length + 8) s.data with
  | some (v, rest) => if skipWs rest = [] then some v else none
  | none => none

/-- JS object member lookup on a parsed value: only objects have members, and
a duplicate key in the JSON text leaves the last occurrence (JS property
assignment order). Non-objects and absent keys give undefined (none). -/
def jLookup (v : JVal) (key : String) : Option JVal :=
  match v with
  | JVal.jobj fields => (fields.reverse.find? (fun f => f.1 == key)).map (fun f => f.2)
  | _ => none

/-- The final page payload built at src/index.js line 253:
result.page = \x7b path: input.path, html: input.html \x7d. Either member is
undefined (none) when the parsed input lacks that field. -/
structure PageOut where
  path : Option JVal
  html : Option JVal

/-- One in-flight tool accumulator (src/index.js line 221):
\x7b name, input_json \x7d. -/
structure ToolCall where
  name : String
  input_json : String

/-- The mutable relay state of src/index.js lines 188-192 (the byte buffer of
line 192 lives below the parsed-event level of this model). -/
structure RelayState where
  fullMessageText : String
  toolCalls : List ToolCall
  sentPageStatus : Bool
  sentThinkingStatus : Bool

/-- Initial relay state (lines 188-191). -/
def initRelay : RelayState :=
  { fullMessageText := "", toolCalls := [], sentPageStatus := false,
    sentThinkingStatus := false }

/-- One event written to the output stream with sendEvent (line 154). -/
inductive Ev where
  | status (text : String) : Ev
  | text (text : String) : Ev
  | done (message : String) (page : Option PageOut) : Ev
  | error (message : String) : Ev

/-- Append a chunk to the input_json of the last tool accumulator
(src/index.js lines 235-236: toolCalls[toolCalls.length - 1]; no-op when the
list is empty, matching the `if (lastTool)` guard). -/
def appendToLast : List ToolCall → String → List ToolCall
  | [], _ => []
  | [t], chunk => [{ t with input_json := t.input_json ++ chunk }]
  | t :: t2 :: rest, chunk => t :: appendToLast (t2 :: rest) chunk

/-- Dispatch one parsed upstream event (src/index.js lines 211-239), returning
the new state and the output events written during that dispatch. -/
def step (st : RelayState) (f : Frag) : RelayState × List Ev :=
  match f with
  | Frag.thinkingStart =>
    if st.sentThinkingStatus then (st, [])
    else ({ st with sentThinkingStatus := true }, [Ev.status ("Thinking...")])
  | Frag.toolStart name =>
    let st2 := { st with toolCalls := st.toolCalls ++ [{ name := name, input_json := "" }] }
    if st2.sentPageStatus then (st2, [])
    else ({ st2 with sentPageStatus := true }, [Ev.status ("Building page...")])
  | Frag.textDelta t =>
    ({ st with fullMessageText := st.fullMessageText ++ t }, [Ev.text t])
  | Frag.inputJsonDelta chunk =>
    ({ st with toolCalls := appendToLast st.toolCalls chunk }, [])
  | Frag.other => (st, [])

/-- Run the read-decode-dispatch loop (lines 194-244) over a whole feed,
collecting the output events in order. -/
def runFrags : RelayState → List Frag → RelayState × List Ev
  | st, [] => (st, [])
  | st, f :: fs =>
    let (st2, evs) := step st f
    let (st3, evs2) := runFrags st2 fs
    (st3, evs ++ evs2)

/-- JS whitespace as trimmed by String.prototype.trim (the ASCII part plus
no-break space; further exotic Unicode space code points never arise in the
claims and are omitted from the model). -/
def isJsWs (c : Char) : Bool :=
  c = ' ' ∨ c = '\t' ∨ c = '\n' ∨ c = '\r' ∨ c.toNat = 11 ∨ c.toNat = 12 ∨ c.toNat = 160

/-- Model of JS String.prototype.trim (src/index.js line 247), defined
structurally on the character list so that it evaluates by reduction. -/
def jsTrim (s : String) : String :=
  String.mk ((s.data.dropWhile isJsWs).reverse.dropWhile isJsWs).reverse

/-- Parse a buffered tool input (line 252: JSON.parse(pageCall.input_json))
and project the path and html members (line 253). none exactly when
JSON.parse throws, in which case the empty catch at line 254 leaves
result.page null. -/
def parsePageInput (buf : String) : Option PageOut :=
  match jparse buf with
  | some v => some { path := jLookup v ("path"), html := jLookup v ("html") }
  | none => none

/-- The predicate selecting the artifact-producing tool call
(src/index.js line 249: t.name === \x27generate_page\x27). -/
def isGPCall (t : ToolCall) : Bool :=
  t.name == "generate_page"

/-- The default acknowledgement substituted at line 258 when the narrative is
empty but a page is present. -/
def defaultDoneMsg : String :=
  "Here\x27s the updated page:"

/-- Assemble the terminal done event (src/index.js lines 246-261): trimmed
narrative text; the first tool call named generate_page, if any, supplies the
page when its buffer parses; an empty message with a present page is replaced
by the default acknowledgement. -/
def finalize (st : RelayState) : Ev :=
  let msg := jsTrim st.fullMessageText
  let page :=
    match st.toolCalls.find? isGPCall with
    | some tc => parsePageInput tc.input_json
    | none => none
  let msg2 := if msg = "" ∧ page.isSome then defaultDoneMsg else msg
  Ev.done msg2 page

/-- The behavior of one upstream interaction, as observed by the try block of
src/index.js lines 160-262: the initial fetch yields a non-success status
(lines 179-184), or the stream is read to completion delivering a list of
parsed events, or an exception is raised after some prefix of the events has
been processed (caught at lines 263-264; this also covers an exception thrown
by the fetch itself, with an empty prefix). -/
inductive Upstream where
  | httpFail (status : Nat) : Upstream
  | feed (frags : List Frag) : Upstream
  | feedExc (frags : List Frag) (msg : String) : Upstream

/-- The full output of one relay invocation: the ordered list of events
written to the output stream, paired with the fact that the writer is closed
afterwards (the close of line 182 in the http-failure branch, and the finally
of lines 265-267 on every path — a second close of an already closed writer
writes nothing). -/
def relayOutput : Upstream → List Ev × Bool
  | Upstream.httpFail status =>
    ([Ev.error ("Claude API error: " ++ toString status)], true)
  | Upstream.feed frags =>
    let (st, evs) := runFrags initRelay frags
    (evs ++ [finalize st], true)
  | Upstream.feedExc frags msg =>
    let (_, evs) := runFrags initRelay frags
    (evs ++ [Ev.error msg], true)

/-- A terminal event (done or error). -/
def isTerminal : Ev → Bool
  | Ev.done _ _ => true
  | Ev.error _ => true
  | _ => false

/-- Concatenation of a list of strings in order. -/
def concatAll : List String → String
  | [] => ""
  | s :: rest => s ++ concatAll rest

/-- The text_delta payloads of a feed, in arrival order. -/
def textPayloads : List Frag → List String
  | [] => []
  | Frag.textDelta t :: fs => t :: textPayloads fs
  | _ :: fs => textPayloads fs

/-- The input_json_delta chunks arriving before the next tool-start fragment
(these are exactly the chunks the loop appends to the current accumulator). -/
def chunksUntilToolStart : List Frag → List String
  | [] => []
  | Frag.toolStart _ :: _ => []
  | Frag.inputJsonDelta c :: fs => c :: chunksUntilToolStart fs
  | _ :: fs => chunksUntilToolStart fs

/-- The input chunks attributed to the first generate_page tool call of a
feed: the input_json_delta chunks between its tool-start fragment and the
next tool-start (none when the feed has no generate_page tool-start). -/
def genPageChunks : List Frag → Option (List String)
  | [] => none
  | Frag.toolStart n :: fs =>
    if n = "generate_page" then some (chunksUntilToolStart fs) else genPageChunks fs
  | _ :: fs => genPageChunks fs

/-- A feed with no tool-start fragment at all. -/
def noToolStart (fs : List Frag) : Bool :=
  fs.all (fun f => match f with | Frag.toolStart _ => false | _ => true)

/-- The payload of a text event, none for every other event. -/
def evText : Ev → Option String
  | Ev.text t => some t
  | _ => none

/-- The toolCalls component of one dispatch, as a function of the previous
toolCalls alone (the dispatch of lines 211-239 updates toolCalls
independently of the other mutable variables). -/
def tcUpdate (tcs : List ToolCall) : Frag → List ToolCall
  | Frag.toolStart n => tcs ++ [{ name := n, input_json := "" }]
  | Frag.inputJsonDelta c => appendToLast tcs c
  | _ => tcs

theorem step_fst_toolCalls (st : RelayState) (f : Frag) :
    ((step st f).1).toolCalls = tcUpdate st.toolCalls f := by
  cases f with
  | thinkingStart => by_cases h : st.sentThinkingStatus <;> simp [step, h, tcUpdate]
  | toolStart n => by_cases h : st.sentPageStatus <;> simp [step, h, tcUpdate]
  | textDelta t => rfl
  | inputJsonDelta c => rfl
  | other => rfl

theorem step_fst_msg (st : RelayState) (f : Frag) :
    ((step st f).1).fullMessageText =
      (match f with
       | Frag.textDelta t => st.fullMessageText ++ t
       | _ => st.fullMessageText) := by
  cases f with
  | thinkingStart => by_cases h : st.sentThinkingStatus <;> simp [step, h]
  | toolStart n => by_cases h : st.sentPageStatus <;> simp [step, h]
  | textDelta t => rfl
  | inputJsonDelta c => rfl
  | other => rfl

theorem step_snd_evText (st : RelayState) (f : Frag) :
    ((step st f).2).filterMap evText =
      (match f with
       | Frag.textDelta t => [t]
       | _ => []) := by
  cases f with
  | thinkingStart => by_cases h : st.sentThinkingStatus <;> simp [step, h, evText]
  | toolStart n => by_cases h : st.sentPageStatus <;> simp [step, h, evText]
  | textDelta t => simp [step, evText]
  | inputJsonDelta c => rfl
  | other => rfl

theorem step_snd_noterm (st : RelayState) (f : Frag) :
    ∀ e ∈ (step st f).2, isTerminal e = false := by
  cases f with
  | thinkingStart =>
    by_cases h : st.sentThinkingStatus <;> simp [step, h, isTerminal]
  | toolStart n =>
    by_cases h : st.sentPageStatus <;> simp [step, h, isTerminal]
  | textDelta t => simp [step, isTerminal]
  | inputJsonDelta c => simp [step]
  | other => simp [step]

theorem runFrags_cons (st : RelayState) (f : Frag) (fs : List Frag) :
    runFrags st (f :: fs) =
      ((runFrags (step st f).1 fs).1, (step st f).2 ++ (runFrags (step st f).1 fs).2) := by
  rcases h : step st f with ⟨st2, evs⟩
  rcases h2 : runFrags st2 fs with ⟨st3, evs2⟩
  simp [runFrags, h, h2]

theorem runFrags_noterm (fs : List Frag) :
    ∀ (st : RelayState), ∀ e ∈ (runFrags st fs).2, isTerminal e = false := by
  induction fs with
  | nil => intro st e he; simp [runFrags] at he
  | cons f fs ih =>
    intro st e he
    rw [runFrags_cons] at he
    simp only [List.mem_append] at he
    rcases he with he | he
    · exact step_snd_noterm st f e he
    · exact ih (step st f).1 e he

theorem runFrags_evText (fs : List Frag) :
    ∀ (st : RelayState), ((runFrags st fs).2).filterMap evText = textPayloads fs := by
  induction fs with
  | nil => intro st; simp [runFrags, textPayloads]
  | cons f fs ih =>
    intro st
    rw [runFrags_cons]
    simp only [List.filterMap_append, step_snd_evText, ih]
    cases f <;> simp [textPayloads]

/-- The buffered input of the first generate_page tool call, if any. -/
def gpBuf (tcs : List ToolCall) : Option String :=
  (tcs.find? isGPCall).map (fun t => t.input_json)

/-- No accumulator in the list is a generate_page call. -/
def noGPb (tcs : List ToolCall) : Bool :=
  tcs.all (fun t => !(isGPCall t))

theorem appendToLast_length (tcs : List ToolCall) (c : String) :
    (appendToLast tcs c).length = tcs.length := by
  induction tcs with
  | nil => rfl
  | cons t rest ih =>
    cases rest with
    | nil => rfl
    | cons t2 rest2 => simpa [appendToLast] using ih

theorem appendToLast_concat (tcs : List ToolCall) (t : ToolCall) (c : String) :
    appendToLast (tcs ++ [t]) c = tcs ++ [{ t with input_json := t.input_json ++ c }] := by
  induction tcs with
  | nil => rfl
  | cons a rest ih =>
    cases h : rest ++ [t] with
    | nil => simp at h
    | cons z zs => simp only [List.cons_append, appendToLast, h]; rw [← h, ih]

theorem appendToLast_append_left (xs ys : List ToolCall) (c : String) (h : ys ≠ []) :
    appendToLast (xs ++ ys) c = xs ++ appendToLast ys c := by
  induction xs with
  | nil => rfl
  | cons a rest ih =>
    cases h2 : rest ++ ys with
    | nil =>
      rcases List.append_eq_nil.mp h2 with ⟨_, h3⟩
      exact absurd h3 h
    | cons z zs => simp only [List.cons_append, appendToLast, h2]; rw [← h2, ih]

theorem appendToLast_noGPb (tcs : List ToolCall) (c : String) :
    noGPb (appendToLast tcs c) = noGPb tcs := by
  induction tcs with
  | nil => rfl
  | cons t rest ih =>
    cases rest with
    | nil => simp [appendToLast, noGPb, isGPCall]
    | cons t2 rest2 =>
      simp only [appendToLast, noGPb, List.all_cons] at ih ⊢
      rw [ih]

theorem noGPb_append_single (tcs : List ToolCall) (t : ToolCall) :
    noGPb (tcs ++ [t]) = (noGPb tcs && !(isGPCall t)) := by
  simp [noGPb]

theorem find?_gp_of_noGPb {tcs : List ToolCall} (h : noGPb tcs = true) :
    tcs.find? isGPCall = none := by
  rw [List.find?_eq_none]
  intro t ht
  have := (List.all_eq_true.mp h) t ht
  simpa using this

/-- Once the first generate_page accumulator is no longer the last element of
the list, the dispatch loop never changes it again: deltas go to the last
element and tool-starts only append. -/
theorem runFrags_gp_frozen (fs : List Frag) :
    ∀ (st : RelayState) (l : List ToolCall) (e : ToolCall) (r : List ToolCall),
      st.toolCalls = l ++ e :: r → noGPb l = true → isGPCall e = true → r ≠ [] →
      gpBuf ((runFrags st fs).1.toolCalls) = some e.input_json := by
  induction fs with
  | nil =>
    intro st l e r hst hl he _
    simp only [runFrags, hst, gpBuf, List.find?_append, find?_gp_of_noGPb hl,
      List.find?_cons_of_pos _ he, Option.none_or]
    rfl
  | cons f fs ih =>
    intro st l e r hst hl he hr
    rw [runFrags_cons]
    have htc : ((step st f).1).toolCalls = tcUpdate st.toolCalls f := step_fst_toolCalls st f
    cases f with
    | toolStart n =>
      refine ih (step st (Frag.toolStart n)).1 l e (r ++ [{ name := n, input_json := "" }]) ?_ hl he (by simp)
      rw [htc]; simp [tcUpdate, hst]
    | inputJsonDelta c =>
      rcases List.exists_cons_of_ne_nil hr with ⟨z, zs, rfl⟩
      refine ih (step st (Frag.inputJsonDelta c)).1 l e (appendToLast (z :: zs) c) ?_ hl he (by
        intro hcon
        have := appendToLast_length (z :: zs) c
        rw [hcon] at this
        simp at this)
      rw [htc, hst]
      simp only [tcUpdate]
      rw [appendToLast_append_left l (e :: z :: zs) c (by simp)]
      rfl
    | thinkingStart => exact ih _ l e r (by rw [htc]; simpa [tcUpdate] using hst) hl he hr
    | textDelta t => exact ih _ l e r (by rw [htc]; simpa [tcUpdate] using hst) hl he hr
    | other => exact ih _ l e r (by rw [htc]; simpa [tcUpdate] using hst) hl he hr

/-- While the first generate_page accumulator is the last element, the loop
appends exactly the arriving input_json_delta chunks to it, until the next
tool-start freezes it. -/
theorem runFrags_gp_last (fs : List Frag) :
    ∀ (st : RelayState) (tcs : List ToolCall) (b : String),
      st.toolCalls = tcs ++ [{ name := "generate_page", input_json := b }] →
      noGPb tcs = true →
      gpBuf ((runFrags st fs).1.toolCalls) =
        some (b ++ concatAll (chunksUntilToolStart fs)) := by
  induction fs with
  | nil =>
    intro st tcs b hst hl
    simp only [runFrags, hst, gpBuf, List.find?_append, find?_gp_of_noGPb hl,
      List.find?_cons_of_pos _ (show isGPCall { name := "generate_page", input_json := b } = true from rfl),
      Option.none_or, chunksUntilToolStart, concatAll]
    simp
  | cons f fs ih =>
    intro st tcs b hst hl
    rw [runFrags_cons]
    have htc : ((step st f).1).toolCalls = tcUpdate st.toolCalls f := step_fst_toolCalls st f
    cases f with
    | toolStart n =>
      have := runFrags_gp_frozen fs (step st (Frag.toolStart n)).1 tcs
        { name := "generate_page", input_json := b } [{ name := n, input_json := "" }]
        (by rw [htc]; simp [tcUpdate, hst]) hl (by simp [isGPCall]) (by simp)
      simpa [chunksUntilToolStart, concatAll] using this
    | inputJsonDelta c =>
      have := ih (step st (Frag.inputJsonDelta c)).1 tcs (b ++ c)
        (by rw [htc, hst]; simp only [tcUpdate]; rw [appendToLast_concat]) hl
      simpa [chunksUntilToolStart, concatAll, String.append_assoc] using this
    | thinkingStart =>
      simpa [chunksUntilToolStart] using
        ih _ tcs b (by rw [htc]; simpa [tcUpdate] using hst) hl
    | textDelta t =>
      simpa [chunksUntilToolStart] using
        ih _ tcs b (by rw [htc]; simpa [tcUpdate] using hst) hl
    | other =>
      simpa [chunksUntilToolStart] using
        ih _ tcs b (by rw [htc]; simpa [tcUpdate] using hst) hl

/-- Accumulation correctness: starting with no generate_page accumulator, the
final buffer of the first generate_page call is exactly the concatenation of
the chunks the feed attributes to it. -/
theorem runFrags_gpBuf (fs : List Frag) :
    ∀ (st : RelayState), noGPb st.toolCalls = true →
      gpBuf ((runFrags st fs).1.toolCalls) = (genPageChunks fs).map concatAll := by
  induction fs with
  | nil =>
    intro st h
    simp [runFrags, gpBuf, find?_gp_of_noGPb h, genPageChunks]
  | cons f fs ih =>
    intro st h
    rw [runFrags_cons]
    have htc : ((step st f).1).toolCalls = tcUpdate st.toolCalls f := step_fst_toolCalls st f
    cases f with
    | toolStart n =>
      by_cases hn : n = "generate_page"
      · subst hn
        have := runFrags_gp_last fs (step st (Frag.toolStart "generate_page")).1
          st.toolCalls "" (by rw [htc]; simp [tcUpdate]) h
        simpa [genPageChunks] using this
      · have hno : noGPb ((step st (Frag.toolStart n)).1).toolCalls = true := by
          rw [htc]
          simp only [tcUpdate, noGPb_append_single, h, Bool.true_and, Bool.not_eq_eq_eq_not,
            Bool.not_true]
          simpa [isGPCall] using hn
        rw [ih _ hno]
        simp [genPageChunks, hn]
    | inputJsonDelta c =>
      have hno : noGPb ((step st (Frag.inputJsonDelta c)).1).toolCalls = true := by
        rw [htc]; simpa [tcUpdate, appendToLast_noGPb] using h
      rw [ih _ hno]
      simp [genPageChunks]
    | thinkingStart =>
      rw [ih _ (by rw [htc]; simpa [tcUpdate] using h)]
      simp [genPageChunks]
    | textDelta t =>
      rw [ih _ (by rw [htc]; simpa [tcUpdate] using h)]
      simp [genPageChunks]
    | other =>
      rw [ih _ (by rw [htc]; simpa [tcUpdate] using h)]
      simp [genPageChunks]

theorem runFrags_msg (fs : List Frag) :
    ∀ (st : RelayState),
      ((runFrags st fs).1).fullMessageText =
        st.fullMessageText ++ concatAll (textPayloads fs) := by
  induction fs with
  | nil => intro st; simp [runFrags, concatAll]
  | cons f fs ih =>
    intro st
    rw [runFrags_cons]
    simp only [ih, step_fst_msg]
    cases f <;> simp [textPayloads, concatAll, String.append_assoc]

/-- An error event. -/
def evIsError : Ev → Bool
  | Ev.error _ => true
  | _ => false

theorem relayOutput_feed (frags : List Frag) :
    relayOutput (Upstream.feed frags) =
      ((runFrags initRelay frags).2 ++ [finalize (runFrags initRelay frags).1], true) := by
  rcases h : runFrags initRelay frags with ⟨st, evs⟩
  simp [relayOutput, h]

theorem relayOutput_feedExc (frags : List Frag) (msg : String) :
    relayOutput (Upstream.feedExc frags msg) =
      ((runFrags initRelay frags).2 ++ [Ev.error msg], true) := by
  rcases h : runFrags initRelay frags with ⟨st, evs⟩
  simp [relayOutput, h]

theorem finalize_eq (st : RelayState) :
    finalize st =
      Ev.done
        (if jsTrim st.fullMessageText = "" ∧ ((gpBuf st.toolCalls).bind parsePageInput).isSome
         then defaultDoneMsg else jsTrim st.fullMessageText)
        ((gpBuf st.toolCalls).bind parsePageInput) := by
  have hpage : (match st.toolCalls.find? isGPCall with
      | some tc => parsePageInput tc.input_json
      | none => none) =
      ((st.toolCalls.find? isGPCall).map (fun t => t.input_json)).bind parsePageInput := by
    cases st.toolCalls.find? isGPCall <;> rfl
  simp only [finalize]
  rw [hpage]
  simp only [gpBuf]

theorem isTerminal_finalize (st : RelayState) : isTerminal (finalize st) = true := by
  rw [finalize_eq]; rfl

theorem evText_finalize (st : RelayState) : evText (finalize st) = none := by
  rw [finalize_eq]; rfl

/-- C1: for every relay invocation and every upstream behavior — successful
stream, non-success response status, or an exception raised after any prefix
of the feed — exactly one terminal event (done or error) is emitted on the
output stream, it is the last event, and the writer is closed after it (never
with zero terminal events, never with two). -/
theorem relay_exactly_one_terminal (u : Upstream) :
    (relayOutput u).1.countP isTerminal = 1 ∧
    (∃ e, (relayOutput u).1.getLast? = some e ∧ isTerminal e = true) ∧
    (relayOutput u).2 = true := by
  cases u with
  | httpFail status =>
    exact ⟨rfl, ⟨_, rfl, rfl⟩, rfl⟩
  | feed frags =>
    have hz : (runFrags initRelay frags).2.countP isTerminal = 0 :=
      List.countP_eq_zero.mpr (fun e he => by simp [runFrags_noterm frags initRelay e he])
    refine ⟨?_, ⟨finalize (runFrags initRelay frags).1, ?_, isTerminal_finalize _⟩, ?_⟩
    · rw [relayOutput_feed]
      simp [List.countP_append, hz, List.countP_cons, isTerminal_finalize]
    · rw [relayOutput_feed]
      exact List.getLast?_concat _
    · rw [relayOutput_feed]
  | feedExc frags msg =>
    have hz : (runFrags initRelay frags).2.countP isTerminal = 0 :=
      List.countP_eq_zero.mpr (fun e he => by simp [runFrags_noterm frags initRelay e he])
    refine ⟨?_, ⟨Ev.error msg, ?_, rfl⟩, ?_⟩
    · rw [relayOutput_feedExc]
      simp [List.countP_append, hz, List.countP_cons, isTerminal]
    · rw [relayOutput_feedExc]
      exact List.getLast?_concat _
    · rw [relayOutput_feedExc]

/-- Bool test stating the C2 claim on the output stream: after the Building
page status event (which is emitted exactly when the first tool-start
fragment is observed, src/index.js lines 220-226), no further text event
appears. -/
def noTextAfterBuild : List Ev → Bool
  | [] => true
  | Ev.status s :: rest =>
    if s == "Building page..." then
      rest.all (fun e => match e with | Ev.text _ => false | _ => true)
    else noTextAfterBuild rest
  | _ :: rest => noTextAfterBuild rest

/-- C2 is false on the code: a feed whose tool-start is followed by a text
delta still gets that delta forwarded as a text event before the terminal
event — the dispatch at lines 228-232 forwards every text_delta regardless of
whether artifact construction has begun. -/
theorem claim_c2_counterexample :
    (relayOutput (Upstream.feed
        [Frag.toolStart ("generate_page"), Frag.textDelta ("And a closing note.")])).1 =
      [Ev.status ("Building page..."), Ev.text ("And a closing note."),
       Ev.done ("And a closing note.") none] ∧
    noTextAfterBuild (relayOutput (Upstream.feed
        [Frag.toolStart ("generate_page"), Frag.textDelta ("And a closing note.")])).1 = false :=
  ⟨rfl, rfl⟩

/-- C2 amended: narrative text forwarding never stops — on every feed (and on
every feed cut short by an exception) the text events on the output stream
are exactly the text_delta payloads of the feed, in arrival order, including
any that arrive after artifact construction has begun. -/
theorem relay_text_forwarded_throughout (fs : List Frag) (msg : String) :
    ((relayOutput (Upstream.feed fs)).1.filterMap evText = textPayloads fs) ∧
    ((relayOutput (Upstream.feedExc fs msg)).1.filterMap evText = textPayloads fs) := by
  constructor
  · rw [relayOutput_feed]
    simp [List.filterMap_append, runFrags_evText, evText_finalize]
  · rw [relayOutput_feedExc]
    simp [List.filterMap_append, runFrags_evText, evText]

theorem noToolStart_genPageChunks (fs : List Frag) (h : noToolStart fs = true) :
    genPageChunks fs = none := by
  induction fs with
  | nil => rfl
  | cons f fs ih =>
    simp only [noToolStart, List.all_cons, Bool.and_eq_true] at h
    cases f with
    | toolStart n => simp at h
    | thinkingStart => exact ih h.2
    | textDelta t => exact ih h.2
    | inputJsonDelta c => exact ih h.2
    | other => exact ih h.2

/-- C3: on every feed with no tool-start fragment, the terminal done event
carries artifact null and a message equal to the trimmed concatenation of all
text_delta payloads in arrival order. -/
theorem relay_no_tool_done (fs : List Frag) (h : noToolStart fs = true) :
    (relayOutput (Upstream.feed fs)).1.getLast? =
      some (Ev.done (jsTrim (concatAll (textPayloads fs))) none) := by
  rw [relayOutput_feed, List.getLast?_concat, finalize_eq]
  have hb : gpBuf ((runFrags initRelay fs).1.toolCalls) = none := by
    rw [runFrags_gpBuf fs initRelay rfl, noToolStart_genPageChunks fs h]
    rfl
  rw [hb, runFrags_msg]
  simp [initRelay]

/-- Witness for C3 at the spec scenario: text_delta "Hi ", text_delta
"there", stream end. -/
theorem relay_no_tool_done_witness :
    (relayOutput (Upstream.feed
        [Frag.textDelta ("Hi "), Frag.textDelta ("there"), Frag.other])).1.getLast? =
      some (Ev.done ("Hi there") none) :=
  (relay_no_tool_done [Frag.textDelta ("Hi "), Frag.textDelta ("there"), Frag.other] rfl).trans rfl

/-- C4: for a feed containing a generate-page tool call, if the concatenation
of the input chunks attributed to it parses as JSON carrying path and html
members then the done artifact is exactly that pair; if it does not parse the
artifact is null, the narrative message is still delivered, and no error
event is emitted. -/
theorem relay_artifact_from_chunks (fs : List Frag) (chunks : List String)
    (h : genPageChunks fs = some chunks) :
    (∀ v p q, jparse (concatAll chunks) = some v →
      jLookup v ("path") = some p → jLookup v ("html") = some q →
      (relayOutput (Upstream.feed fs)).1.getLast? =
        some (Ev.done
          (if jsTrim (concatAll (textPayloads fs)) = "" then defaultDoneMsg
           else jsTrim (concatAll (textPayloads fs)))
          (some { path := some p, html := some q }))) ∧
    (jparse (concatAll chunks) = none →
      (relayOutput (Upstream.feed fs)).1.getLast? =
        some (Ev.done (jsTrim (concatAll (textPayloads fs))) none) ∧
      ∀ e ∈ (relayOutput (Upstream.feed fs)).1, evIsError e = false) := by
  have hb : gpBuf ((runFrags initRelay fs).1.toolCalls) = some (concatAll chunks) := by
    rw [runFrags_gpBuf fs initRelay rfl, h]
    rfl
  have hmsg : ((runFrags initRelay fs).1).fullMessageText = concatAll (textPayloads fs) := by
    rw [runFrags_msg]
    rfl
  constructor
  · intro v p q hv hp hq
    rw [relayOutput_feed, List.getLast?_concat, finalize_eq, hb, hmsg]
    simp only [Option.some_bind, parsePageInput, hv, hp, hq, Option.isSome_some, and_true]
  · intro hv
    have hpage : parsePageInput (concatAll chunks) = none := by
      simp [parsePageInput, hv]
    constructor
    · rw [relayOutput_feed, List.getLast?_concat, finalize_eq, hb, hmsg]
      simp [hpage]
    · intro e he
      rw [relayOutput_feed] at he
      simp only [List.mem_append, List.mem_singleton] at he
      rcases he with he | he
      · have := runFrags_noterm fs initRelay e he
        cases e <;> simp_all [isTerminal, evIsError]
      · rw [he, finalize_eq]
        rfl

/-- Witness for C4 (parsing branch): two chunks concatenating to a JSON
object with path and html members produce exactly that artifact. -/
theorem relay_artifact_from_chunks_witness :
    (relayOutput (Upstream.feed
        [Frag.textDelta ("Built it."), Frag.toolStart ("generate_page"),
         Frag.inputJsonDelta ("\x7b\"path\":\"/camp\","),
         Frag.inputJsonDelta ("\"html\":\"<p>x</p>\"\x7d")])).1.getLast? =
      some (Ev.done ("Built it.")
        (some { path := some (JVal.jstr ("/camp")), html := some (JVal.jstr ("<p>x</p>")) })) :=
  ((relay_artifact_from_chunks
      [Frag.textDelta ("Built it."), Frag.toolStart ("generate_page"),
       Frag.inputJsonDelta ("\x7b\"path\":\"/camp\","),
       Frag.inputJsonDelta ("\"html\":\"<p>x</p>\"\x7d")]
      [("\x7b\"path\":\"/camp\","), ("\"html\":\"<p>x</p>\"\x7d")] rfl).1
    (JVal.jobj [(("path"), JVal.jstr ("/camp")), (("html"), JVal.jstr ("<p>x</p>"))])
    (JVal.jstr ("/camp")) (JVal.jstr ("<p>x</p>")) rfl rfl rfl).trans rfl

/-!
Part 3: the credential lifecycle manager (src/index.js lines 112-134) and the
Google-backed handlers (lines 340-471). The KV namespace TOKENS is modelled
as a function from keys to optional stored records; Date.now() as an integer
instant supplied per request; each outbound network interaction (token
refresh, code exchange, calendar/mail reads) as an oracle argument giving the
remote reply, so that the functions below are the exact deterministic residue
of the source once the remote replies are fixed.
-/

/-- The stored credential record for one account, as created by the OAuth
callback (src/index.js lines 378-381) and updated by refresh (lines 130-132).
Every field is optional because the upstream token response may omit members
(JSON.stringify drops undefined fields); none models an absent member. -/
structure StoredToken where
  refresh_token : Option String
  access_token : Option String
  expires_at : Option Int
  email : Option String
  connected_at : Option String
deriving DecidableEq, Repr

/-- The KV token store (namespace TOKENS): key-value get/put/delete. -/
abbrev Store : Type := String → Option StoredToken

/-- The KV key for an account (src/index.js: the template google:USER). -/
def tkey (u : String) : String := "google:" ++ u

/-- env.TOKENS.put for a whole record. -/
def putStore (s : Store) (k : String) (v : StoredToken) : Store :=
  fun k2 => if k2 = k then some v else s k2

/-- env.TOKENS.delete. -/
def delStore (s : Store) (k : String) : Store :=
  fun k2 => if k2 = k then none else s k2

/-- JS truthiness of an optional string member: undefined and the empty
string are falsy. -/
def truthyS : Option String → Bool
  | none => false
  | some s => !(s == "")

/-- JS truthiness of an optional numeric member: undefined and 0 are falsy. -/
def truthyI : Option Int → Bool
  | none => false
  | some n => !(n == 0)

/-- The provider reply to a refresh-token exchange (the parsed JSON of
src/index.js line 128): a truthy data.error, or a success carrying the new
access token and its duration in seconds. -/
inductive RefreshResult where
  | err : RefreshResult
  | ok (access_token : String) (expires_in : Int) : RefreshResult
deriving DecidableEq, Repr

/-- The outcome of one getGoogleAccessToken call: the returned token (none
for the JS null / undefined returns), the store afterwards, and whether a
network refresh call was made. -/
structure TokenResult where
  token : Option String
  store : Store
  networkCall : Bool

/-- The cache-freshness test of src/index.js line 115:
stored.access_token && stored.expires_at && Date.now() < stored.expires_at - 300000. -/
def cacheValid (stored : StoredToken) (now : Int) : Bool :=
  truthyS stored.access_token && truthyI stored.expires_at &&
    decide (now < stored.expires_at.getD 0 - 300000)

/-- getGoogleAccessToken (src/index.js lines 112-134). now models Date.now()
for this call; resp models the provider reply in case a refresh is made. -/
def getGoogleAccessToken (u : String) (now : Int) (resp : RefreshResult) (s : Store) :
    TokenResult :=
  match s (tkey u) with
  | none => { token := none, store := s, networkCall := false }
  | some stored =>
    if !truthyS stored.refresh_token then
      { token := none, store := s, networkCall := false }
    else if cacheValid stored now then
      { token := stored.access_token, store := s, networkCall := false }
    else
      match resp with
      | RefreshResult.err =>
        { token := none, store := delStore s (tkey u), networkCall := true }
      | RefreshResult.ok tok expires_in =>
        { token := some tok,
          store := putStore s (tkey u)
            { stored with access_token := some tok, expires_at := some (now + expires_in * 1000) },
          networkCall := true }

/-- C5: when the stored record is fresh (access token and expiry present, and
the current instant is more than the 5-minute margin before expiry), the call
returns the stored access token unchanged with no network call and no store
change; consequently a second call in quick succession (still within the
margin) also makes no network call — the two calls together perform zero
network refreshes. -/
theorem getToken_cache_hit (u : String) (now now2 : Int) (resp resp2 : RefreshResult)
    (s : Store) (stored : StoredToken)
    (hs : s (tkey u) = some stored)
    (hr : truthyS stored.refresh_token = true)
    (hv : cacheValid stored now = true) :
    getGoogleAccessToken u now resp s =
      { token := stored.access_token, store := s, networkCall := false } ∧
    (cacheValid stored now2 = true →
      getGoogleAccessToken u now2 resp2 ((getGoogleAccessToken u now resp s).store) =
        { token := stored.access_token, store := s, networkCall := false }) := by
  have h1 : getGoogleAccessToken u now resp s =
      { token := stored.access_token, store := s, networkCall := false } := by
    simp [getGoogleAccessToken, hs, hr, hv]
  refine ⟨h1, fun hv2 => ?_⟩
  rw [h1]
  simp [getGoogleAccessToken, hs, hr, hv2]

/-- Witness for C5 at a concrete fresh record. -/
theorem getToken_cache_hit_witness :
    (getGoogleAccessToken ("chris") 1000 RefreshResult.err
        (putStore (fun _ => none) (tkey ("chris"))
          { refresh_token := some ("r1"), access_token := some ("a1"),
            expires_at := some 2000000, email := some ("c@x.com"),
            connected_at := some ("t0") })).token = some ("a1") ∧
    (getGoogleAccessToken ("chris") 1000 RefreshResult.err
        (putStore (fun _ => none) (tkey ("chris"))
          { refresh_token := some ("r1"), access_token := some ("a1"),
            expires_at := some 2000000, email := some ("c@x.com"),
            connected_at := some ("t0") })).networkCall = false := by
  have h := getToken_cache_hit ("chris") 1000 1000 RefreshResult.err RefreshResult.err
    (putStore (fun _ => none) (tkey ("chris"))
      { refresh_token := some ("r1"), access_token := some ("a1"),
        expires_at := some 2000000, email := some ("c@x.com"), connected_at := some ("t0") })
    { refresh_token := some ("r1"), access_token := some ("a1"),
      expires_at := some 2000000, email := some ("c@x.com"), connected_at := some ("t0") }
    rfl rfl (by decide)
  rw [h.1]
  exact ⟨rfl, rfl⟩

/-- C6: a refresh rejected by the provider deletes the stored record and
returns absent, and every subsequent call for that account (with no
re-authorization in between) returns absent without a network call. -/
theorem getToken_refresh_error_deletes (u : String) (now : Int) (s : Store)
    (stored : StoredToken)
    (hs : s (tkey u) = some stored)
    (hr : truthyS stored.refresh_token = true)
    (hm : cacheValid stored now = false) :
    getGoogleAccessToken u now RefreshResult.err s =
      { token := none, store := delStore s (tkey u), networkCall := true } ∧
    (∀ (now2 : Int) (resp2 : RefreshResult),
      getGoogleAccessToken u now2 resp2 (delStore s (tkey u)) =
        { token := none, store := delStore s (tkey u), networkCall := false }) := by
  constructor
  · simp [getGoogleAccessToken, hs, hr, hm]
  · intro now2 resp2
    simp [getGoogleAccessToken, delStore]

/-- Witness for C6 at a concrete stale record. -/
theorem getToken_refresh_error_deletes_witness :
    (getGoogleAccessToken ("wife") 5000000 RefreshResult.err
        (putStore (fun _ => none) (tkey ("wife"))
          { refresh_token := some ("r2"), access_token := some ("a2"),
            expires_at := some 1000, email := none, connected_at := none })).token = none ∧
    (getGoogleAccessToken ("wife") 5000001 RefreshResult.err
        ((getGoogleAccessToken ("wife") 5000000 RefreshResult.err
          (putStore (fun _ => none) (tkey ("wife"))
            { refresh_token := some ("r2"), access_token := some ("a2"),
              expires_at := some 1000, email := none, connected_at := none })).store)).networkCall
      = false := by
  have h := getToken_refresh_error_deletes ("wife") 5000000
    (putStore (fun _ => none) (tkey ("wife"))
      { refresh_token := some ("r2"), access_token := some ("a2"),
        expires_at := some 1000, email := none, connected_at := none })
    { refresh_token := some ("r2"), access_token := some ("a2"),
      expires_at := some 1000, email := none, connected_at := none }
    rfl rfl (by decide)
  refine ⟨by rw [h.1], ?_⟩
  rw [h.1]
  rw [h.2 5000001 RefreshResult.err]

/-- C9: a fully successful refresh writes back exactly the prior record with
only the access token and absolute expiry replaced (expiry = now plus the
reported duration in milliseconds); the refresh token, linked email and
connection timestamp are preserved; a provider-error reply never writes a
record (the key is deleted or left untouched); and no other key is ever
touched by any call. -/
theorem getToken_refresh_success_frame (u : String) (now : Int) (s : Store)
    (stored : StoredToken) (tok : String) (dur : Int)
    (hs : s (tkey u) = some stored)
    (hr : truthyS stored.refresh_token = true)
    (hm : cacheValid stored now = false) :
    (getGoogleAccessToken u now (RefreshResult.ok tok dur) s =
      { token := some tok,
        store := putStore s (tkey u)
          { refresh_token := stored.refresh_token, access_token := some tok,
            expires_at := some (now + dur * 1000), email := stored.email,
            connected_at := stored.connected_at },
        networkCall := true }) ∧
    (∀ (now2 : Int) (s2 : Store),
      ((getGoogleAccessToken u now2 RefreshResult.err s2).store (tkey u) = none ∧
        (getGoogleAccessToken u now2 RefreshResult.err s2).token = none) ∨
      (getGoogleAccessToken u now2 RefreshResult.err s2).store (tkey u) = s2 (tkey u)) ∧
    (∀ (now2 : Int) (resp2 : RefreshResult) (s2 : Store) (k : String), k ≠ tkey u →
      (getGoogleAccessToken u now2 resp2 s2).store k = s2 k) := by
  refine ⟨by simp [getGoogleAccessToken, hs, hr, hm], ?_, ?_⟩
  · intro now2 s2
    rcases h2 : s2 (tkey u) with _ | st2
    · right; simp [getGoogleAccessToken, h2]
    · by_cases h3 : truthyS st2.refresh_token
      · by_cases h4 : cacheValid st2 now2
        · right; simp [getGoogleAccessToken, h2, h3, h4]
        · left
          constructor <;> simp [getGoogleAccessToken, h2, h3, h4, delStore]
      · right; simp [getGoogleAccessToken, h2, h3]
  · intro now2 resp2 s2 k hk
    rcases h2 : s2 (tkey u) with _ | st2
    · simp [getGoogleAccessToken, h2]
    · by_cases h3 : truthyS st2.refresh_token
      · by_cases h4 : cacheValid st2 now2
        · simp [getGoogleAccessToken, h2, h3, h4]
        · cases resp2 <;> simp [getGoogleAccessToken, h2, h3, h4, delStore, putStore, hk]
      · simp [getGoogleAccessToken, h2, h3]

/-- Witness for C9 at a concrete stale record and successful refresh. -/
theorem getToken_refresh_success_frame_witness :
    ((getGoogleAccessToken ("chris") 7000000 (RefreshResult.ok ("a9") 3600)
        (putStore (fun _ => none) (tkey ("chris"))
          { refresh_token := some ("r9"), access_token := some ("a8"),
            expires_at := some 7100000, email := some ("c@x.com"),
            connected_at := some ("2025-01-01") })).store (tkey ("chris"))) =
      some { refresh_token := some ("r9"), access_token := some ("a9"),
             expires_at := some 10600000, email := some ("c@x.com"),
             connected_at := some ("2025-01-01") } := by
  have h := getToken_refresh_success_frame ("chris") 7000000
    (putStore (fun _ => none) (tkey ("chris"))
      { refresh_token := some ("r9"), access_token := some ("a8"),
        expires_at := some 7100000, email := some ("c@x.com"),
        connected_at := some ("2025-01-01") })
    { refresh_token := some ("r9"), access_token := some ("a8"),
      expires_at := some 7100000, email := some ("c@x.com"),
      connected_at := some ("2025-01-01") }
    ("a9") 3600 rfl rfl (by decide)
  rw [h.1]
  simp [putStore]

/-- The fixed account identities (src/index.js line 64). -/
def VALID_USERS : List String := [("chris"), ("wife")]

/-- JS truthy-or-default on an optional string member (the pattern
x || d with a string default). -/
def tgetD (o : Option String) (d : String) : String :=
  match o with
  | some s => if s = "" then d else s
  | none => d

/-- JS truthy-or-null on an optional string member (the pattern x || null). -/
def truthyOrNull (o : Option String) : Option String :=
  match o with
  | some s => if s = "" then none else some s
  | none => none

/-- The owner email tag: stored?.email || userKey (src/index.js 423, 448). -/
def ownerEmailOf (rec : Option StoredToken) (u : String) : String :=
  match rec with
  | some st => tgetD st.email u
  | none => u

/-- One upstream calendar item (d.items element) with the members the
normalization of src/index.js lines 420-424 reads. The start and end
instants stand for the Date-comparable value of
e.start?.dateTime || e.start?.date (resp. end); allDay stands for
!!e.start?.date. The RFC3339 string-to-instant conversion performed by the
host Date constructor is abstracted to the instant itself, which is the only
aspect any claim observes. -/
structure GCalItem where
  id : String
  summary : Option String
  start : Int
  endTime : Int
  allDay : Bool
  location : Option String
  htmlLink : String
deriving DecidableEq, Repr

/-- One normalized calendar event pushed into allEvents (lines 420-424). -/
structure CalEvent where
  id : String
  title : String
  start : Int
  endTime : Int
  allDay : Bool
  location : Option String
  link : String
  owner : String
  ownerEmail : String
deriving DecidableEq, Repr

/-- The normalization of src/index.js lines 420-424. -/
def normCalItem (u : String) (em : String) (e : GCalItem) : CalEvent :=
  { id := e.id, title := tgetD e.summary ("(No title)"), start := e.start,
    endTime := e.endTime, allDay := e.allDay, location := truthyOrNull e.location,
    link := e.htmlLink, owner := u, ownerEmail := em }

/-- One upstream mail message (the per-id metadata fetch of lines 450-462)
with the members the normalization reads. fromHeader, subject and date stand
for the lower-cased header map entries h.from, h.subject, h.date of lines
454-455 (the map keeps the last occurrence of a repeated header, which the
model absorbs into the single optional value); internalDate is the optional
numeric msg.internalDate already passed through parseInt. -/
structure GMailItem where
  id : String
  fromHeader : Option String
  subject : Option String
  date : Option String
  internalDate : Option Int
  snippet : Option String
  labelIds : List String
deriving DecidableEq, Repr

/-- One normalized mail record pushed into allMessages (lines 456-461);
fromHeader embeds the JS member named from, which is a reserved word here. -/
structure MailMsg where
  id : String
  fromHeader : String
  subject : String
  date : Option String
  timestamp : Int
  snippet : String
  unread : Bool
  link : String
  owner : String
  ownerEmail : String
deriving DecidableEq, Repr

/-- The normalization of src/index.js lines 456-461. -/
def normMailItem (u : String) (em : String) (m : GMailItem) : MailMsg :=
  { id := m.id, fromHeader := tgetD m.fromHeader ("Unknown"),
    subject := tgetD m.subject ("(No subject)"), date := truthyOrNull m.date,
    timestamp := m.internalDate.getD 0, snippet := tgetD m.snippet (""),
    unread := m.labelIds.contains ("UNREAD"),
    link := "https://mail.google.com/mail/u/0/#inbox/" ++ m.id,
    owner := u, ownerEmail := em }

/-- Accumulator of the per-account merge loops (handleCalendar lines 410-426,
handleGmail lines 439-465): the growing record list and the evolving store.
The ghost component is specification bookkeeping, not part of the JS: it
records, for each account whose getGoogleAccessToken call yielded a token,
the (possibly empty) list of records that account contributed. -/
structure MergeAcc (α : Type) where
  events : List α
  store : Store
  ghost : List (String × List α)

/-- One iteration of the merge loop for account u: attempt the access token
(continue on absent), fetch that account's page (none models a non-ok
response or an exception, skipped by the catch), re-read the stored record
for the email tag, normalize and append. norm returns none for a per-record
fetch failure (the filter(Boolean) of line 463); for the calendar loop it is
total. -/
def mergeStep {β α : Type} (now : Int) (refresh : String → RefreshResult)
    (fetch : String → Option (List β)) (norm : String → String → β → Option α)
    (acc : MergeAcc α) (u : String) : MergeAcc α :=
  let tr := getGoogleAccessToken u now (refresh u) acc.store
  match tr.token with
  | none => { events := acc.events, store := tr.store, ghost := acc.ghost }
  | some _ =>
    match fetch u with
    | none => { events := acc.events, store := tr.store, ghost := acc.ghost ++ [(u, [])] }
    | some lst =>
      let em := ownerEmailOf (tr.store (tkey u)) u
      let contrib := lst.filterMap (norm u em)
      { events := acc.events ++ contrib, store := tr.store,
        ghost := acc.ghost ++ [(u, contrib)] }

/-- The whole merge loop over the fixed account identities. -/
def mergeLoop {β α : Type} (now : Int) (refresh : String → RefreshResult)
    (fetch : String → Option (List β)) (norm : String → String → β → Option α)
    (s : Store) : MergeAcc α :=
  VALID_USERS.foldl (mergeStep now refresh fetch norm)
    { events := [], store := s, ghost := [] }

/-- The connected_users computation shared by both handlers (lines 429-430
and 468-469): the accounts whose key is present in the store after the loop. -/
def connectedUsers (s : Store) : List String :=
  VALID_USERS.filter (fun u => (s (tkey u)).isSome)

/-- Ascending-by-start ordering of the calendar sort comparator
(line 428: new Date(a.start) - new Date(b.start)). -/
def calCmp (a b : CalEvent) : Prop := a.start ≤ b.start

instance : DecidableRel calCmp :=
  fun a b => inferInstanceAs (Decidable (a.start ≤ b.start))

instance : IsTotal CalEvent calCmp := ⟨fun a b => Int.le_total a.start b.start⟩

instance : IsTrans CalEvent calCmp := ⟨fun _ _ _ h1 h2 => le_trans h1 h2⟩

/-- Descending-by-timestamp ordering of the mail sort comparator
(line 467: b.timestamp - a.timestamp). -/
def mailCmp (a b : MailMsg) : Prop := b.timestamp ≤ a.timestamp

instance : DecidableRel mailCmp :=
  fun a b => inferInstanceAs (Decidable (b.timestamp ≤ a.timestamp))

instance : IsTotal MailMsg mailCmp := ⟨fun a b => Int.le_total b.timestamp a.timestamp⟩

instance : IsTrans MailMsg mailCmp := ⟨fun _ _ _ h1 h2 => le_trans h2 h1⟩

/-- The body of the calendar response (line 431). -/
structure CalResponse where
  events : List CalEvent
  connected_users : List String
  any_connected : Bool
deriving DecidableEq, Repr

/-- The body of the gmail response (line 470). -/
structure MailResponse where
  messages : List MailMsg
  connected_users : List String
  any_connected : Bool
deriving DecidableEq, Repr

/-- GET /api/calendar (src/index.js lines 406-432). The merged events are
sorted ascending by start; JS Array.prototype.sort is modelled by a sorting
algorithm producing a sorted permutation (ties between equal start instants
carry no claim). Returns the response body, the store after the request, and
the ghost bookkeeping. -/
def handleCalendar (now : Int) (refresh : String → RefreshResult)
    (fetch : String → Option (List GCalItem)) (s : Store) :
    CalResponse × Store × List (String × List CalEvent) :=
  let acc := mergeLoop now refresh fetch (fun u em e => some (normCalItem u em e)) s
  let sorted := List.insertionSort calCmp acc.events
  let conn := connectedUsers acc.store
  ({ events := sorted, connected_users := conn, any_connected := !conn.isEmpty },
    acc.store, acc.ghost)

/-- GET /api/gmail (src/index.js lines 437-471), sorted newest first. -/
def handleGmail (now : Int) (refresh : String → RefreshResult)
    (fetch : String → Option (List (Option GMailItem))) (s : Store) :
    MailResponse × Store × List (String × List MailMsg) :=
  let acc := mergeLoop now refresh fetch (fun u em o => Option.map (normMailItem u em) o) s
  let sorted := List.insertionSort mailCmp acc.events
  let conn := connectedUsers acc.store
  ({ messages := sorted, connected_users := conn, any_connected := !conn.isEmpty },
    acc.store, acc.ghost)

theorem tkey_inj {u v : String} (h : tkey u = tkey v) : u = v := by
  have h2 : (tkey u).data = (tkey v).data := congrArg String.data h
  simp only [tkey, String.data_append] at h2
  exact String.ext (List.append_cancel_left h2)

theorem getToken_other_keys (u : String) (now : Int) (resp : RefreshResult) (s : Store)
    (k : String) (hk : k ≠ tkey u) :
    (getGoogleAccessToken u now resp s).store k = s k := by
  rcases h2 : s (tkey u) with _ | stored
  · simp [getGoogleAccessToken, h2]
  · by_cases h3 : truthyS stored.refresh_token
    · by_cases h4 : cacheValid stored now
      · simp [getGoogleAccessToken, h2, h3, h4]
      · cases resp <;> simp [getGoogleAccessToken, h2, h3, h4, delStore, putStore, hk]
    · simp [getGoogleAccessToken, h2, h3]

theorem getToken_record_of_token (u : String) (now : Int) (resp : RefreshResult) (s : Store)
    (h : ((getGoogleAccessToken u now resp s).token).isSome = true) :
    ((getGoogleAccessToken u now resp s).store (tkey u)).isSome = true := by
  rcases h2 : s (tkey u) with _ | stored
  · simp [getGoogleAccessToken, h2] at h
  · by_cases h3 : truthyS stored.refresh_token
    · by_cases h4 : cacheValid stored now
      · simp [getGoogleAccessToken, h2, h3, h4]
      · cases resp with
        | err => simp [getGoogleAccessToken, h2, h3, h4] at h
        | ok t e => simp [getGoogleAccessToken, h2, h3, h4, putStore]
    · simp [getGoogleAccessToken, h2, h3] at h

section MergeLemmas

variable {β α : Type} (now : Int) (refresh : String → RefreshResult)
variable (fetch : String → Option (List β)) (norm : String → String → β → Option α)

theorem mergeStep_store (acc : MergeAcc α) (u : String) :
    (mergeStep now refresh fetch norm acc u).store =
      (getGoogleAccessToken u now (refresh u) acc.store).store := by
  simp only [mergeStep]
  rcases (getGoogleAccessToken u now (refresh u) acc.store).token with _ | t
  · rfl
  · rcases fetch u with _ | lst <;> rfl

theorem mergeStep_ghost_cases (acc : MergeAcc α) (u : String) :
    (mergeStep now refresh fetch norm acc u).ghost = acc.ghost ∨
    (∃ c, (mergeStep now refresh fetch norm acc u).ghost = acc.ghost ++ [(u, c)] ∧
      (((mergeStep now refresh fetch norm acc u).store) (tkey u)).isSome = true) := by
  rw [mergeStep_store]
  simp only [mergeStep]
  rcases h : (getGoogleAccessToken u now (refresh u) acc.store).token with _ | t
  · left; rfl
  · right
    have hrec : (((getGoogleAccessToken u now (refresh u) acc.store).store) (tkey u)).isSome = true :=
      getToken_record_of_token u now (refresh u) acc.store (by simp [h])
    rcases fetch u with _ | lst
    · exact ⟨[], rfl, hrec⟩
    · exact ⟨_, rfl, hrec⟩

theorem mergeStep_events_join (acc : MergeAcc α) (u : String)
    (h : acc.events = (acc.ghost.map Prod.snd).flatten) :
    (mergeStep now refresh fetch norm acc u).events =
      (((mergeStep now refresh fetch norm acc u).ghost).map Prod.snd).flatten := by
  simp only [mergeStep]
  rcases (getGoogleAccessToken u now (refresh u) acc.store).token with _ | t
  · exact h
  · rcases fetch u with _ | lst <;> simp [h]

theorem mergeStep_owner (f : α → String)
    (hnorm : ∀ u em b a, norm u em b = some a → f a = u)
    (acc : MergeAcc α) (u : String)
    (h : ∀ p ∈ acc.ghost, ∀ e ∈ p.2, f e = p.1) :
    ∀ p ∈ (mergeStep now refresh fetch norm acc u).ghost, ∀ e ∈ p.2, f e = p.1 := by
  simp only [mergeStep]
  rcases (getGoogleAccessToken u now (refresh u) acc.store).token with _ | t
  · exact h
  · rcases fetch u with _ | lst
    · intro p hp
      rcases List.mem_append.mp hp with hp2 | hp2
      · exact h p hp2
      · intro e he
        simp only [List.mem_singleton] at hp2
        rw [hp2] at he
        simp at he
    · intro p hp
      rcases List.mem_append.mp hp with hp2 | hp2
      · exact h p hp2
      · intro e he
        simp only [List.mem_singleton] at hp2
        rw [hp2] at he
        simp only at he
        rcases List.mem_filterMap.mp he with ⟨b, _, hb2⟩
        rw [hp2]
        exact hnorm u _ b e hb2

theorem fold_store_foreign (users : List String) :
    ∀ (acc : MergeAcc α) (k : String), (∀ u ∈ users, k ≠ tkey u) →
      ((users.foldl (mergeStep now refresh fetch norm) acc).store) k = acc.store k := by
  induction users with
  | nil => intro acc k _; rfl
  | cons v rest ih =>
    intro acc k hk
    simp only [List.foldl_cons]
    rw [ih _ k (fun u hu => hk u (List.mem_cons_of_mem v hu)), mergeStep_store]
    exact getToken_other_keys v now (refresh v) acc.store k (hk v (List.mem_cons_self v rest))

theorem fold_events_join (users : List String) :
    ∀ (acc : MergeAcc α), acc.events = (acc.ghost.map Prod.snd).flatten →
      ((users.foldl (mergeStep now refresh fetch norm) acc).events) =
        ((((users.foldl (mergeStep now refresh fetch norm) acc).ghost)).map Prod.snd).flatten := by
  induction users with
  | nil => intro acc h; exact h
  | cons v rest ih =>
    intro acc h
    simp only [List.foldl_cons]
    exact ih _ (mergeStep_events_join now refresh fetch norm acc v h)

theorem fold_owner (users : List String) (f : α → String)
    (hnorm : ∀ u em b a, norm u em b = some a → f a = u) :
    ∀ (acc : MergeAcc α), (∀ p ∈ acc.ghost, ∀ e ∈ p.2, f e = p.1) →
      ∀ p ∈ (users.foldl (mergeStep now refresh fetch norm) acc).ghost, ∀ e ∈ p.2, f e = p.1 := by
  induction users with
  | nil => intro acc h; exact h
  | cons v rest ih =>
    intro acc h
    simp only [List.foldl_cons]
    exact ih _ (mergeStep_owner now refresh fetch norm f hnorm acc v h)

theorem fold_ghost_mem (users : List String) :
    ∀ (acc : MergeAcc α) (p : String × List α),
      p ∈ (users.foldl (mergeStep now refresh fetch norm) acc).ghost →
      p ∈ acc.ghost ∨ p.1 ∈ users := by
  induction users with
  | nil => intro acc p hp; exact Or.inl hp
  | cons v rest ih =>
    intro acc p hp
    simp only [List.foldl_cons] at hp
    rcases ih _ p hp with hp2 | hp2
    · rcases mergeStep_ghost_cases now refresh fetch norm acc v with hg | ⟨c, hg, _⟩
      · rw [hg] at hp2
        exact Or.inl hp2
      · rw [hg] at hp2
        rcases List.mem_append.mp hp2 with hp3 | hp3
        · exact Or.inl hp3
        · simp only [List.mem_singleton] at hp3
          rw [hp3]
          exact Or.inr (List.mem_cons_self v rest)
    · exact Or.inr (List.mem_cons_of_mem v hp2)

theorem fold_ghost_connected (users : List String) :
    ∀ (acc : MergeAcc α), users.Nodup →
      (∀ p ∈ acc.ghost, ((acc.store (tkey p.1)).isSome = true ∧ p.1 ∉ users)) →
      ∀ p ∈ (users.foldl (mergeStep now refresh fetch norm) acc).ghost,
        (((users.foldl (mergeStep now refresh fetch norm) acc).store) (tkey p.1)).isSome = true := by
  induction users with
  | nil => intro acc _ h p hp; exact (h p hp).1
  | cons v rest ih =>
    intro acc hnd h
    simp only [List.foldl_cons]
    refine ih _ (List.Nodup.of_cons hnd) ?_
    intro p hp
    rcases mergeStep_ghost_cases now refresh fetch norm acc v with hg | ⟨c, hg, hrec⟩
    · rw [hg] at hp
      rcases h p hp with ⟨hrec2, hnotin⟩
      have hne : p.1 ≠ v := fun he => hnotin (he ▸ List.mem_cons_self v rest)
      constructor
      · rw [mergeStep_store]
        rw [getToken_other_keys v now (refresh v) acc.store (tkey p.1)
          (fun he => hne (tkey_inj he))]
        exact hrec2
      · exact fun hin => hnotin (List.mem_cons_of_mem v hin)
    · rw [hg] at hp
      rcases List.mem_append.mp hp with hp2 | hp2
      · rcases h p hp2 with ⟨hrec2, hnotin⟩
        have hne : p.1 ≠ v := fun he => hnotin (he ▸ List.mem_cons_self v rest)
        constructor
        · rw [mergeStep_store]
          rw [getToken_other_keys v now (refresh v) acc.store (tkey p.1)
            (fun he => hne (tkey_inj he))]
          exact hrec2
        · exact fun hin => hnotin (List.mem_cons_of_mem v hin)
      · simp only [List.mem_singleton] at hp2
        rw [hp2]
        exact ⟨hrec, (List.nodup_cons.mp hnd).1⟩

end MergeLemmas

/-- The store with no records. -/
def emptyStore : Store := fun _ => none

/-- A store whose chris record carries a blank refresh token: such a record
yields no usable access token (src/index.js line 114 returns null) yet stays
in the store, so the connected check of lines 429-430 still reports chris. -/
def blankRefreshStore : Store :=
  putStore emptyStore (tkey ("chris"))
    { refresh_token := some (""), access_token := none, expires_at := none,
      email := none, connected_at := none }

/-- C7 is false on the code: with a chris record whose refresh token is
blank, no account yields a usable token during the request (the ghost list of
token-yielding accounts is empty), yet connected_users reports chris — the
connected check (lines 429-430) tests record presence, not token usability. -/
theorem claim_c7_counterexample :
    (handleCalendar 0 (fun _ => RefreshResult.err) (fun _ => none)
        blankRefreshStore).1.connected_users = [("chris")] ∧
    (handleCalendar 0 (fun _ => RefreshResult.err) (fun _ => none)
        blankRefreshStore).2.2 = [] ∧
    ¬((handleCalendar 0 (fun _ => RefreshResult.err) (fun _ => none)
        blankRefreshStore).1.connected_users =
      ((handleCalendar 0 (fun _ => RefreshResult.err) (fun _ => none)
        blankRefreshStore).2.2).map Prod.fst) := by
  refine ⟨rfl, rfl, ?_⟩
  intro h
  rw [show ((handleCalendar 0 (fun _ => RefreshResult.err) (fun _ => none)
      blankRefreshStore).2.2).map Prod.fst = ([] : List String) from rfl] at h
  exact List.cons_ne_nil _ _ h

/-- C7 amended: the connected-accounts list of both merge handlers contains
exactly the accounts whose credential record is present in the store after
the request's per-account processing; every account that yielded a usable
access token is included, but an account whose record yields no usable token
(such as one with a blank refresh token) may be reported connected too. -/
theorem connected_users_amended (now : Int)
    (crefresh : String → RefreshResult) (cfetch : String → Option (List GCalItem))
    (mrefresh : String → RefreshResult) (mfetch : String → Option (List (Option GMailItem)))
    (s : Store) :
    ((handleCalendar now crefresh cfetch s).1.connected_users =
        connectedUsers ((handleCalendar now crefresh cfetch s).2.1) ∧
      ∀ p ∈ (handleCalendar now crefresh cfetch s).2.2,
        p.1 ∈ (handleCalendar now crefresh cfetch s).1.connected_users) ∧
    ((handleGmail now mrefresh mfetch s).1.connected_users =
        connectedUsers ((handleGmail now mrefresh mfetch s).2.1) ∧
      ∀ p ∈ (handleGmail now mrefresh mfetch s).2.2,
        p.1 ∈ (handleGmail now mrefresh mfetch s).1.connected_users) := by
  constructor
  · refine ⟨rfl, ?_⟩
    intro p hp
    have hp2 : p ∈ (VALID_USERS.foldl
        (mergeStep now crefresh cfetch (fun u em e => some (normCalItem u em e)))
        { events := [], store := s, ghost := [] }).ghost := hp
    have hmem := fold_ghost_mem now crefresh cfetch (fun u em e => some (normCalItem u em e))
      VALID_USERS _ p hp2
    have hrec := fold_ghost_connected now crefresh cfetch (fun u em e => some (normCalItem u em e))
      VALID_USERS _ (by decide) (by intro q hq; simp at hq) p hp2
    have hv : p.1 ∈ VALID_USERS := by
      rcases hmem with h | h
      · simp at h
      · exact h
    exact List.mem_filter.mpr ⟨hv, hrec⟩
  · refine ⟨rfl, ?_⟩
    intro p hp
    have hp2 : p ∈ (VALID_USERS.foldl
        (mergeStep now mrefresh mfetch (fun u em o => Option.map (normMailItem u em) o))
        { events := [], store := s, ghost := [] }).ghost := hp
    have hmem := fold_ghost_mem now mrefresh mfetch (fun u em o => Option.map (normMailItem u em) o)
      VALID_USERS _ p hp2
    have hrec := fold_ghost_connected now mrefresh mfetch (fun u em o => Option.map (normMailItem u em) o)
      VALID_USERS _ (by decide) (by intro q hq; simp at hq) p hp2
    have hv : p.1 ∈ VALID_USERS := by
      rcases hmem with h | h
      · simp at h
      · exact h
    exact List.mem_filter.mpr ⟨hv, hrec⟩

/-- C8: both merged results are sorted (calendar ascending by start, mail
descending by timestamp); the output records are a permutation of the
per-account contributions of exactly the accounts that yielded a token
(absent-token accounts contribute nothing and block nothing); and every
output record carries the owner tag of the account it came from. -/
theorem merge_sorted_tagged (now : Int)
    (crefresh : String → RefreshResult) (cfetch : String → Option (List GCalItem))
    (mrefresh : String → RefreshResult) (mfetch : String → Option (List (Option GMailItem)))
    (s : Store) :
    (List.Sorted calCmp (handleCalendar now crefresh cfetch s).1.events ∧
      (handleCalendar now crefresh cfetch s).1.events.Perm
        (((handleCalendar now crefresh cfetch s).2.2).map Prod.snd).flatten ∧
      (∀ p ∈ (handleCalendar now crefresh cfetch s).2.2, ∀ e ∈ p.2, e.owner = p.1) ∧
      (∀ e ∈ (handleCalendar now crefresh cfetch s).1.events,
        ∃ p ∈ (handleCalendar now crefresh cfetch s).2.2, e ∈ p.2 ∧ e.owner = p.1)) ∧
    (List.Sorted mailCmp (handleGmail now mrefresh mfetch s).1.messages ∧
      (handleGmail now mrefresh mfetch s).1.messages.Perm
        (((handleGmail now mrefresh mfetch s).2.2).map Prod.snd).flatten ∧
      (∀ p ∈ (handleGmail now mrefresh mfetch s).2.2, ∀ e ∈ p.2, e.owner = p.1) ∧
      (∀ e ∈ (handleGmail now mrefresh mfetch s).1.messages,
        ∃ p ∈ (handleGmail now mrefresh mfetch s).2.2, e ∈ p.2 ∧ e.owner = p.1)) := by
  have hcj := fold_events_join now crefresh cfetch (fun u em e => some (normCalItem u em e))
    VALID_USERS { events := [], store := s, ghost := [] } rfl
  have hco := fold_owner now crefresh cfetch (fun u em e => some (normCalItem u em e))
    VALID_USERS (fun e => e.owner)
    (by intro u em b a hb; cases hb; rfl)
    { events := [], store := s, ghost := [] } (by intro p hp; simp at hp)
  have hmj := fold_events_join now mrefresh mfetch (fun u em o => Option.map (normMailItem u em) o)
    VALID_USERS { events := [], store := s, ghost := [] } rfl
  have hmo := fold_owner now mrefresh mfetch (fun u em o => Option.map (normMailItem u em) o)
    VALID_USERS (fun e => e.owner)
    (by
      intro u em b a hb
      cases b with
      | none => simp at hb
      | some m => cases hb; rfl)
    { events := [], store := s, ghost := [] } (by intro p hp; simp at hp)
  constructor
  · refine ⟨List.sorted_insertionSort calCmp _, hcj ▸ List.perm_insertionSort calCmp _, hco, ?_⟩
    intro e he
    have he2 : e ∈ (VALID_USERS.foldl
        (mergeStep now crefresh cfetch (fun u em e => some (normCalItem u em e)))
        { events := [], store := s, ghost := [] }).events :=
      (List.mem_insertionSort calCmp).mp he
    rw [hcj] at he2
    rcases List.mem_flatten.mp he2 with ⟨l, hl, hel⟩
    rcases List.mem_map.mp hl with ⟨p, hp, rfl⟩
    exact ⟨p, hp, hel, hco p hp e hel⟩
  · refine ⟨List.sorted_insertionSort mailCmp _, hmj ▸ List.perm_insertionSort mailCmp _, hmo, ?_⟩
    intro e he
    have he2 : e ∈ (VALID_USERS.foldl
        (mergeStep now mrefresh mfetch (fun u em o => Option.map (normMailItem u em) o))
        { events := [], store := s, ghost := [] }).events :=
      (List.mem_insertionSort mailCmp).mp he
    rw [hmj] at he2
    rcases List.mem_flatten.mp he2 with ⟨l, hl, hel⟩
    rcases List.mem_map.mp hl with ⟨p, hp, rfl⟩
    exact ⟨p, hp, hel, hmo p hp e hel⟩

/-- The provider reply to the authorization-code exchange (the parsed JSON of
src/index.js line 369): a truthy tokens.error with its description, or a
success carrying an optional refresh token (the provider may omit members),
the access token and the duration in seconds. -/
inductive TokenExchange where
  | err (desc : String) : TokenExchange
  | ok (refresh_token : Option String) (access_token : String) (expires_in : Int) : TokenExchange
deriving DecidableEq, Repr

/-- The page rendered by the OAuth callback (lines 359, 370, 384). -/
inductive CbView where
  | authFailed (e : String) : CbView
  | exchangeFailed (desc : String) : CbView
  | success (userKey : String) (email : String) : CbView
deriving DecidableEq, Repr

/-- The account key taken from the opaque state parameter (line 357:
url.searchParams.get with fallback to unknown for an absent or empty value). -/
def userKeyOf : Option String → String
  | none => "unknown"
  | some k => if k = "" then "unknown" else k

/-- GET /api/google/callback (src/index.js lines 355-385). errParam, the
code-exchange reply tex, and the userinfo email fetch (none for an exception
or an absent member) are oracles; now and nowIso model Date.now() and the ISO
connection timestamp. The record is stored under whatever identity arrives in
the state parameter — there is no check against VALID_USERS. -/
def handleGoogleCallback (stateParam errParam : Option String) (tex : TokenExchange)
    (emailFetch : Option String) (now : Int) (nowIso : String) (s : Store) :
    CbView × Store :=
  let userKey := userKeyOf stateParam
  if truthyS errParam then (CbView.authFailed (errParam.getD ("")), s)
  else
    match tex with
    | TokenExchange.err d => (CbView.exchangeFailed d, s)
    | TokenExchange.ok rt tok dur =>
      let googleEmail := emailFetch.getD ("")
      (CbView.success userKey googleEmail,
        putStore s (tkey userKey)
          { refresh_token := rt, access_token := some tok,
            expires_at := some (now + dur * 1000), email := some googleEmail,
            connected_at := some nowIso })

/-- One entry of the connections report (src/index.js line 391). -/
inductive ConnStatus where
  | connectedAs (email : String) (connected_at : Option String) : ConnStatus
  | notConnected : ConnStatus
deriving DecidableEq, Repr

/-- GET /api/connections (src/index.js lines 387-394): iterates only over
VALID_USERS. -/
def handleConnections (s : Store) : List (String × ConnStatus) :=
  VALID_USERS.map (fun u =>
    (u, match s (tkey u) with
        | some st => ConnStatus.connectedAs (tgetD st.email ("Unknown")) st.connected_at
        | none => ConnStatus.notConnected))

/-- The disconnect response (line 398 or 400). -/
inductive DiscView where
  | invalid : DiscView
  | ok : DiscView
deriving DecidableEq, Repr

/-- DELETE /api/google/disconnect (src/index.js lines 396-401): rejects an
absent, empty or non-VALID_USERS user parameter, otherwise deletes that
account's key only. -/
def handleDisconnect (userParam : Option String) (s : Store) : DiscView × Store :=
  match userParam with
  | none => (DiscView.invalid, s)
  | some u =>
    if u = "" ∨ ¬(VALID_USERS.contains u) then (DiscView.invalid, s)
    else (DiscView.ok, delStore s (tkey u))

theorem putStore_comm (s : Store) (k1 k2 : String) (v1 v2 : StoredToken) (h : k1 ≠ k2) :
    putStore (putStore s k1 v1) k2 v2 = putStore (putStore s k2 v2) k1 v1 := by
  funext x
  simp only [putStore]
  by_cases h1 : x = k1 <;> by_cases h2 : x = k2 <;>
    simp [h1, h2, h, Ne.symm h]

theorem delStore_putStore (s : Store) (k1 k2 : String) (v1 : StoredToken) (h : k1 ≠ k2) :
    delStore (putStore s k1 v1) k2 = putStore (delStore s k2) k1 v1 := by
  funext x
  simp only [putStore, delStore]
  by_cases h1 : x = k1 <;> by_cases h2 : x = k2 <;>
    simp [h1, h2, h, Ne.symm h]

theorem getToken_putStore_foreign (u : String) (now : Int) (resp : RefreshResult)
    (s : Store) (k : String) (v : StoredToken) (hk : k ≠ tkey u) :
    getGoogleAccessToken u now resp (putStore s k v) =
      { token := (getGoogleAccessToken u now resp s).token,
        store := putStore ((getGoogleAccessToken u now resp s).store) k v,
        networkCall := (getGoogleAccessToken u now resp s).networkCall } := by
  have hlook : (putStore s k v) (tkey u) = s (tkey u) := by
    simp only [putStore]
    rw [if_neg (show ¬(tkey u = k) from fun h => hk h.symm)]
  rcases h2 : s (tkey u) with _ | stored
  · simp [getGoogleAccessToken, hlook, h2]
  · by_cases h3 : truthyS stored.refresh_token
    · by_cases h4 : cacheValid stored now
      · simp [getGoogleAccessToken, hlook, h2, h3, h4]
      · cases resp with
        | err =>
          simp [getGoogleAccessToken, hlook, h2, h3, h4,
            delStore_putStore s k (tkey u) v hk]
        | ok t e =>
          simp [getGoogleAccessToken, hlook, h2, h3, h4, putStore_comm s k (tkey u) v _ hk]
    · simp [getGoogleAccessToken, hlook, h2, h3]

theorem mergeStep_putStore_foreign {β α : Type} (now : Int)
    (refresh : String → RefreshResult) (fetch : String → Option (List β))
    (norm : String → String → β → Option α) (acc : MergeAcc α) (u : String)
    (k : String) (v : StoredToken) (hk : k ≠ tkey u) :
    mergeStep now refresh fetch norm
        { events := acc.events, store := putStore acc.store k v, ghost := acc.ghost } u =
      { events := (mergeStep now refresh fetch norm acc u).events,
        store := putStore ((mergeStep now refresh fetch norm acc u).store) k v,
        ghost := (mergeStep now refresh fetch norm acc u).ghost } := by
  have hg := getToken_putStore_foreign u now (refresh u) acc.store k v hk
  have hlook : (putStore ((getGoogleAccessToken u now (refresh u) acc.store).store) k v) (tkey u) =
      ((getGoogleAccessToken u now (refresh u) acc.store).store) (tkey u) := by
    simp only [putStore]
    rw [if_neg (show ¬(tkey u = k) from fun h => hk h.symm)]
  simp only [mergeStep, hg, hlook]
  rcases (getGoogleAccessToken u now (refresh u) acc.store).token with _ | t
  · rfl
  · rcases fetch u with _ | lst <;> rfl

theorem fold_putStore_foreign {β α : Type} (now : Int)
    (refresh : String → RefreshResult) (fetch : String → Option (List β))
    (norm : String → String → β → Option α) (users : List String) :
    ∀ (acc : MergeAcc α) (k : String) (v : StoredToken), (∀ u ∈ users, k ≠ tkey u) →
      users.foldl (mergeStep now refresh fetch norm)
          { events := acc.events, store := putStore acc.store k v, ghost := acc.ghost } =
        { events := (users.foldl (mergeStep now refresh fetch norm) acc).events,
          store := putStore ((users.foldl (mergeStep now refresh fetch norm) acc).store) k v,
          ghost := (users.foldl (mergeStep now refresh fetch norm) acc).ghost } := by
  induction users with
  | nil => intro acc k v _; rfl
  | cons w rest ih =>
    intro acc k v hk
    simp only [List.foldl_cons]
    rw [mergeStep_putStore_foreign now refresh fetch norm acc w k v (hk w (List.mem_cons_self w rest))]
    exact ih (mergeStep now refresh fetch norm acc w) k v
      (fun u hu => hk u (List.mem_cons_of_mem w hu))

theorem connectedUsers_putStore_foreign (s : Store) (k : String) (v : StoredToken)
    (hk : ∀ u ∈ VALID_USERS, k ≠ tkey u) :
    connectedUsers (putStore s k v) = connectedUsers s := by
  refine List.filter_congr ?_
  intro u hu
  simp only [putStore]
  rw [if_neg (show ¬(tkey u = k) from fun h => hk u hu h.symm)]

/-- C10: the OAuth callback stores the credential record under whatever
identity arrives in the state parameter (unknown when absent), with no check
against the fixed account set; and a record stored under any key outside the
VALID_USERS keys is never read: the connections report, the calendar and
gmail merge responses, and the disconnect outcome are unchanged by adding
such a record, and disconnect leaves that record in place. -/
theorem callback_foreign_key_never_read
    (stateParam : Option String) (rt : Option String) (tok : String) (dur : Int)
    (emailFetch : Option String) (now : Int) (nowIso : String) (s : Store)
    (k : String) (v : StoredToken) (hk : ∀ u ∈ VALID_USERS, k ≠ tkey u) :
    ((handleGoogleCallback stateParam none (TokenExchange.ok rt tok dur)
        emailFetch now nowIso s).2 =
      putStore s (tkey (userKeyOf stateParam))
        { refresh_token := rt, access_token := some tok,
          expires_at := some (now + dur * 1000), email := some (emailFetch.getD ("")),
          connected_at := some nowIso }) ∧
    userKeyOf none = "unknown" ∧
    (handleConnections (putStore s k v) = handleConnections s) ∧
    (∀ (crefresh : String → RefreshResult) (cfetch : String → Option (List GCalItem)),
      (handleCalendar now crefresh cfetch (putStore s k v)).1 =
        (handleCalendar now crefresh cfetch s).1) ∧
    (∀ (mrefresh : String → RefreshResult) (mfetch : String → Option (List (Option GMailItem))),
      (handleGmail now mrefresh mfetch (putStore s k v)).1 =
        (handleGmail now mrefresh mfetch s).1) ∧
    (∀ (userParam : Option String),
      (handleDisconnect userParam (putStore s k v)).1 = (handleDisconnect userParam s).1 ∧
      (handleDisconnect userParam (putStore s k v)).2 =
        putStore ((handleDisconnect userParam s).2) k v) := by
  refine ⟨rfl, rfl, ?_, ?_, ?_, ?_⟩
  · refine List.map_congr_left ?_
    intro u hu
    have hlook : (putStore s k v) (tkey u) = s (tkey u) := by
      simp only [putStore]
      rw [if_neg (show ¬(tkey u = k) from fun h => hk u hu h.symm)]
    rw [hlook]
  · intro crefresh cfetch
    have hf := fold_putStore_foreign now crefresh cfetch
      (fun u em e => some (normCalItem u em e)) VALID_USERS
      { events := [], store := s, ghost := [] } k v hk
    simp only [handleCalendar, mergeLoop, hf]
    rw [connectedUsers_putStore_foreign _ k v hk]
  · intro mrefresh mfetch
    have hf := fold_putStore_foreign now mrefresh mfetch
      (fun u em o => Option.map (normMailItem u em) o) VALID_USERS
      { events := [], store := s, ghost := [] } k v hk
    simp only [handleGmail, mergeLoop, hf]
    rw [connectedUsers_putStore_foreign _ k v hk]
  · intro userParam
    rcases userParam with _ | u
    · exact ⟨rfl, rfl⟩
    · simp only [handleDisconnect]
      by_cases hu : u = "" ∨ ¬(VALID_USERS.contains u)
      · rw [if_pos hu, if_pos hu]
        exact ⟨rfl, rfl⟩
      · rw [if_neg hu, if_neg hu]
        have hmem : u ∈ VALID_USERS := by
          rcases not_or.mp hu with ⟨_, h2⟩
          simpa using not_not.mp h2
        exact ⟨rfl, delStore_putStore s k (tkey u) v (hk u hmem)⟩

/-- A record stored under a key outside the VALID_USERS keys. -/
def foreignRec : StoredToken :=
  { refresh_token := some ("x"), access_token := some ("y"),
    expires_at := some 99, email := some ("m@x.com"), connected_at := some ("t1") }

/-- Witness for C10: a callback whose state parameter carries the unvalidated
identity mallory stores a record under google:mallory, and adding a record
under a foreign key leaves the connections report unchanged. -/
theorem callback_foreign_key_never_read_witness :
    (handleGoogleCallback (some ("mallory")) none (TokenExchange.ok (some ("r")) ("t") 3600)
        none 0 ("ts") emptyStore).2 (tkey ("mallory")) =
      some { refresh_token := some ("r"), access_token := some ("t"),
             expires_at := some 3600000, email := some (""), connected_at := some ("ts") } ∧
    handleConnections (putStore emptyStore ("google:intruder") foreignRec) =
      handleConnections emptyStore := by
  have h := callback_foreign_key_never_read (some ("mallory")) (some ("r")) ("t") 3600
    none 0 ("ts") emptyStore ("google:intruder") foreignRec (by decide)
  constructor
  · rw [h.1]
    rfl
  · exact h.2.2.1

end Worker
